import Mathlib

/-!
# lessons/fundamentals/02_variables/example.c

A shallow embedding of the lesson program

```c
int main() {
    int age = 25;
    float height = 1.75;
    float bmi_weight = 70.5;
    float bmi = bmi_weight / (height * height);
    printf("Age: %d years\n", age);
    printf("Height: %.2f meters\n", height);
    printf("Weight: %.1f kg\n", bmi_weight);
    printf("BMI: %.1f\n", bmi);
    return 0;
}
```

The program computes with `float` and prints through `printf`, so the
embedding has three layers:

* IEEE 754 binary arithmetic, modelled exactly with integers: a finite value
  is a sign, an integer significand and a power-of-two exponent, and every
  operation rounds the exact result to nearest, ties to even (`FP.round`);
* the fragment of `printf` the program uses (`%d`, `%f`, `%.Nf`, `%%`), with
  the correctly rounded decimal conversion of the C library (`fmt_f`);
* `main` itself, as a function on the state of the process.

`float` expressions are evaluated in binary32 (`FLT_EVAL_METHOD == 0`);
`bmi_eval_method_independent` and `bmi_eval_extended` show that evaluating
them in binary64 or in the x87 extended format and rounding on assignment
yields the same `bmi`.  Writes to standard output are
taken to succeed.
-/

namespace Variables

set_option maxRecDepth 100000
set_option maxHeartbeats 2000000

/-! ## IEEE 754 binary formats -/

/-- Parameters of an IEEE 754 binary format: the number of significand bits
(the hidden bit included) and the largest exponent. -/
structure Format where
  prec : Nat
  emax : Int
deriving DecidableEq

/-- The C type `float`. -/
def binary32 : Format := { prec := 24, emax := 127 }

/-- The C type `double`. -/
def binary64 : Format := { prec := 53, emax := 1023 }

/-- The x87 double-extended format, in which `float` expressions are evaluated when
`FLT_EVAL_METHOD == 2`. -/
def extended80 : Format := { prec := 64, emax := 16383 }

/-- The smallest exponent of a normal number. -/
def Format.emin (f : Format) : Int := 1 - f.emax

/-- The exponent of the unit in the last place of the subnormal numbers (and of zero). -/
def Format.qmin (f : Format) : Int := f.emin - ((f.prec : Int) - 1)

/-- A floating-point datum.  `finite neg m e` is the number `(-1)^neg * m * 2^e`. -/
inductive FP where
  | finite (neg : Bool) (m : Nat) (e : Int)
  | inf (neg : Bool)
  | nan
deriving DecidableEq

/-- The fraction `n / d` rounded to the nearest integer, ties to even (`d` positive). -/
def rne (n d : Nat) : Nat :=
  let q := n / d
  let r := n % d
  if 2 * r < d then q
  else if d < 2 * r then q + 1
  else if q % 2 = 0 then q else q + 1

/-- Binary logarithm by repeated halving; the first argument bounds the number of steps. -/
def ilog2Aux : Nat → Nat → Nat
  | 0, _ => 0
  | fuel + 1, n => if n < 2 then 0 else ilog2Aux fuel (n / 2) + 1

/-- The position of the leading bit of `n`: `2 ^ ilog2 n ≤ n < 2 ^ (ilog2 n + 1)` for positive `n`. -/
def ilog2 (n : Nat) : Nat := ilog2Aux n n

/-- The fraction `(n / d) / 2 ^ k` as a numerator and a denominator. -/
def scaleFrac (n d : Nat) (k : Int) : Nat × Nat :=
  if 0 ≤ k then (n, d * 2 ^ k.toNat) else (n * 2 ^ (-k).toNat, d)

/-- The integer `e` with `2 ^ e ≤ n / d < 2 ^ (e + 1)` (`n` and `d` positive). -/
def floorLog2 (n d : Nat) : Int :=
  let e0 : Int := (ilog2 n : Int) - (ilog2 d : Int)
  let s := scaleFrac n d e0
  if s.2 ≤ s.1 then e0 else e0 - 1

/-- The number `(-1)^neg * n / d` rounded into format `f`, to nearest, ties to even:
the significand is rounded at the exponent of the exact value (at `qmin` in the subnormal
range), a carry out of the significand is renormalised, and a result beyond the largest
finite number becomes an infinity. -/
def FP.round (f : Format) (neg : Bool) (n d : Nat) : FP :=
  if d = 0 then FP.nan
  else if n = 0 then FP.finite neg 0 f.qmin
  else
    let e := max (floorLog2 n d) f.emin
    let q := e - ((f.prec : Int) - 1)
    let s := scaleFrac n d q
    let m := rne s.1 s.2
    let mq : Nat × Int := if m = 2 ^ f.prec then (2 ^ (f.prec - 1), q + 1) else (m, q)
    if f.emax < mq.2 + ((f.prec : Int) - 1) then FP.inf neg else FP.finite neg mq.1 mq.2

/-- Conversion of a floating-point datum to format `f` (an initialisation of a `float` by a
`double`, or the promotion of a `float` argument to `double`). -/
def FP.convert (f : Format) : FP → FP
  | FP.finite neg m e =>
    let s := scaleFrac m 1 (-e)
    FP.round f neg s.1 s.2
  | FP.inf neg => FP.inf neg
  | FP.nan => FP.nan

/-- The value in format `f` of the decimal constant `digits / 10 ^ fracDigits`
(`1.75` is `ofDecimal binary64 175 2`). -/
def FP.ofDecimal (f : Format) (digits fracDigits : Nat) : FP :=
  FP.round f false digits (10 ^ fracDigits)

/-- Multiplication in format `f`. -/
def FP.mul (f : Format) : FP → FP → FP
  | FP.nan, _ => FP.nan
  | _, FP.nan => FP.nan
  | FP.inf s, FP.inf t => FP.inf (xor s t)
  | FP.inf s, FP.finite t m _ => if m = 0 then FP.nan else FP.inf (xor s t)
  | FP.finite s m _, FP.inf t => if m = 0 then FP.nan else FP.inf (xor s t)
  | FP.finite s m e, FP.finite t n k =>
    let p := scaleFrac (m * n) 1 (-(e + k))
    FP.round f (xor s t) p.1 p.2

/-- Division in format `f`.  A finite non-zero number divided by zero is an infinity,
zero divided by zero is a NaN. -/
def FP.div (f : Format) : FP → FP → FP
  | FP.nan, _ => FP.nan
  | _, FP.nan => FP.nan
  | FP.inf _, FP.inf _ => FP.nan
  | FP.inf s, FP.finite t _ _ => FP.inf (xor s t)
  | FP.finite s _ _, FP.inf t => FP.finite (xor s t) 0 f.qmin
  | FP.finite s m e, FP.finite t n k =>
    if n = 0 then (if m = 0 then FP.nan else FP.inf (xor s t))
    else
      let p := scaleFrac m n (k - e)
      FP.round f (xor s t) p.1 p.2

/-- Whether the datum is a number (neither an infinity nor a NaN). -/
def FP.isFinite : FP → Bool
  | FP.finite _ _ _ => true
  | _ => false

/-- Whether the datum is a zero. -/
def FP.isZero : FP → Bool
  | FP.finite _ m _ => decide (m = 0)
  | _ => false

/-- The rational number a finite datum denotes. -/
def FP.toRat : FP → Option ℚ
  | FP.finite neg m e => some ((if neg then -1 else 1) * (m : ℚ) * (2 : ℚ) ^ e)
  | _ => none

/-! ## Formatted output -/

/-- The character of a decimal digit. -/
def digitChar (d : Nat) : Char := Char.ofNat (48 + d)

/-- Decimal digits of `n` in front of `acc`; the first argument bounds the number of digits. -/
def natDigitsAux : Nat → Nat → List Char → List Char
  | 0, _, acc => acc
  | fuel + 1, n, acc =>
    if n < 10 then digitChar n :: acc
    else natDigitsAux fuel (n / 10) (digitChar (n % 10) :: acc)

/-- The decimal digits of `n`, without leading zeros. -/
def natDigits (n : Nat) : List Char := natDigitsAux (n + 1) n []

/-- The last `p` decimal digits of `n`, padded with zeros on the left. -/
def fracDigits : Nat → Nat → List Char
  | 0, _ => []
  | p + 1, n => fracDigits p (n / 10) ++ [digitChar (n % 10)]

/-- The minus sign of a negative number. -/
def signChars (neg : Bool) : List Char := if neg then ['-'] else []

/-- The number `(-1)^neg * n / d` in fixed decimal form with `p` digits after the point,
correctly rounded (to nearest, ties to even); no point is written when `p` is zero. -/
def fixedDecimal (p : Nat) (neg : Bool) (n d : Nat) : List Char :=
  let r := rne (n * 10 ^ p) d
  signChars neg ++ natDigits (r / 10 ^ p) ++
    (if p = 0 then [] else '.' :: fracDigits p (r % 10 ^ p))

/-- The conversion `%d` of an `int`. -/
def fmt_d (v : Int) : List Char :=
  signChars (decide (v < 0)) ++ natDigits v.natAbs

/-- The conversion `%.pf` of a `double`. -/
def fmt_f (p : Nat) : FP → List Char
  | FP.nan => ['n', 'a', 'n']
  | FP.inf neg => signChars neg ++ ['i', 'n', 'f']
  | FP.finite neg m e =>
    let s := scaleFrac m 1 (-e)
    fixedDecimal p neg s.1 s.2

/-- An argument of a variadic call, after the default argument promotions. -/
inductive Arg where
  | int (v : Int)
  | double (v : FP)

/-- The state of the format interpreter: copying text, just after a `%`, or reading the
digits of a precision. -/
inductive Mode where
  | text
  | spec
  | precision (p : Nat)

/-- The text a format produces from its arguments.  `none` stands for a format outside the
fragment `%d`, `%f`, `%.Nf`, `%%`, or for an argument that is missing or of the wrong type. -/
def vformat : Mode → List Char → List Arg → Option (List Char)
  | Mode.text, [], _ => some []
  | Mode.text, c :: cs, args =>
    if c = '%' then vformat Mode.spec cs args
    else (vformat Mode.text cs args).map (fun out => c :: out)
  | Mode.spec, c :: cs, args =>
    if c = '%' then (vformat Mode.text cs args).map (fun out => '%' :: out)
    else if c = '.' then vformat (Mode.precision 0) cs args
    else if c = 'd' then
      match args with
      | Arg.int v :: rest => (vformat Mode.text cs rest).map (fun out => fmt_d v ++ out)
      | _ => none
    else if c = 'f' then
      match args with
      | Arg.double v :: rest => (vformat Mode.text cs rest).map (fun out => fmt_f 6 v ++ out)
      | _ => none
    else none
  | Mode.precision p, c :: cs, args =>
    if c.isDigit then vformat (Mode.precision (10 * p + (c.toNat - 48))) cs args
    else if c = 'f' then
      match args with
      | Arg.double v :: rest => (vformat Mode.text cs rest).map (fun out => fmt_f p v ++ out)
      | _ => none
    else none
  | _, [], _ => none

/-! ## The process and `main` -/

/-- What a run of the program can observe or change: its arguments, its environment, the
unread standard input and the text written to standard output so far. -/
structure World where
  argv : List String
  environ : List String
  stdin : String
  stdout : String
deriving DecidableEq

/-- The call `printf(format, args...)`: appends the formatted text to standard output and
returns the number of characters written. -/
def printf (format : String) (args : List Arg) (w : World) : Option (World × Int) :=
  (vformat Mode.text format.toList args).map
    (fun out => ({ w with stdout := w.stdout ++ String.mk out }, (out.length : Int)))

/-- The local variables of `main`. -/
structure Locals where
  age : Int
  height : FP
  bmi_weight : FP
  bmi : FP
deriving DecidableEq

/-- The declarations of `main`: each `float` is initialised from a `double` constant or a
`float` expression. -/
def locals : Locals :=
  let age : Int := 25
  let height : FP := FP.convert binary32 (FP.ofDecimal binary64 175 2)
  let bmi_weight : FP := FP.convert binary32 (FP.ofDecimal binary64 705 1)
  let bmi : FP := FP.div binary32 bmi_weight (FP.mul binary32 height height)
  { age := age, height := height, bmi_weight := bmi_weight, bmi := bmi }

/-- The function `main`: the final state of the process and the exit status.  The values
returned by `printf` are discarded, as in the source. -/
def main (w : World) : Option (World × Int) := do
  let v := locals
  let (w, _) ← printf "Age: %d years\n" [Arg.int v.age] w
  let (w, _) ← printf "Height: %.2f meters\n" [Arg.double (FP.convert binary64 v.height)] w
  let (w, _) ← printf "Weight: %.1f kg\n" [Arg.double (FP.convert binary64 v.bmi_weight)] w
  let (w, _) ← printf "BMI: %.1f\n" [Arg.double (FP.convert binary64 v.bmi)] w
  return (w, 0)

/-- The text `main` writes, in terms of the conversions of its four arguments. -/
def mainText (age : Int) (height bmi_weight bmi : FP) : List Char :=
  "Age: ".toList ++ fmt_d age ++ " years\n".toList ++
    ("Height: ".toList ++ fmt_f 2 height ++ " meters\n".toList) ++
    ("Weight: ".toList ++ fmt_f 1 bmi_weight ++ " kg\n".toList) ++
    ("BMI: ".toList ++ fmt_f 1 bmi ++ "\n".toList)

/-- Every character is a decimal digit. -/
def AllDigits (l : List Char) : Prop := ∀ c ∈ l, c.isDigit = true

instance instDecidableAllDigits (l : List Char) : Decidable (AllDigits l) :=
  inferInstanceAs (Decidable (∀ c ∈ l, c.isDigit = true))

/-! ## The values of the local variables -/

theorem locals_height : locals.height = FP.finite false 14680064 (-23) := by decide

theorem locals_bmi_weight : locals.bmi_weight = FP.finite false 9240576 (-17) := by decide

theorem locals_divisor :
    FP.mul binary32 locals.height locals.height = FP.finite false 12845056 (-22) := by decide

theorem locals_bmi : locals.bmi = FP.finite false 12069324 (-19) := by decide

/-- Evaluating the `float` expression in `double` and rounding on assignment gives the
same `bmi`. -/
theorem bmi_eval_method_independent :
    FP.convert binary32
      (FP.div binary64 (FP.convert binary64 locals.bmi_weight)
        (FP.mul binary64 (FP.convert binary64 locals.height)
          (FP.convert binary64 locals.height))) = locals.bmi := by decide!

/-- Evaluating the `float` expression in the x87 extended format and rounding on assignment
gives the same `bmi`. -/
theorem bmi_eval_extended :
    FP.convert binary32
      (FP.div extended80 (FP.convert extended80 locals.bmi_weight)
        (FP.mul extended80 (FP.convert extended80 locals.height)
          (FP.convert extended80 locals.height))) = locals.bmi := by decide!


/-! ## The four calls of `printf` -/

theorem vformat_age (v : Int) :
    vformat Mode.text "Age: %d years\n".toList [Arg.int v] =
      some ("Age: ".toList ++ fmt_d v ++ " years\n".toList) := by
  rfl

theorem vformat_height (x : FP) :
    vformat Mode.text "Height: %.2f meters\n".toList [Arg.double x] =
      some ("Height: ".toList ++ fmt_f 2 x ++ " meters\n".toList) := by
  rfl

theorem vformat_weight (x : FP) :
    vformat Mode.text "Weight: %.1f kg\n".toList [Arg.double x] =
      some ("Weight: ".toList ++ fmt_f 1 x ++ " kg\n".toList) := by
  rfl

theorem vformat_bmi (x : FP) :
    vformat Mode.text "BMI: %.1f\n".toList [Arg.double x] =
      some ("BMI: ".toList ++ fmt_f 1 x ++ "\n".toList) := by
  rfl

theorem printf_of_vformat (format : String) (args : List Arg) (w : World) (out : List Char)
    (h : vformat Mode.text format.toList args = some out) :
    printf format args w =
      some ({ w with stdout := w.stdout ++ String.mk out }, (out.length : Int)) := by
  rw [printf, h]
  rfl

/-- The run of `main` in terms of the conversions of its four arguments. -/
theorem main_eq (w : World) :
    main w = some ({ w with stdout := w.stdout ++ String.mk (mainText locals.age
      (FP.convert binary64 locals.height) (FP.convert binary64 locals.bmi_weight)
      (FP.convert binary64 locals.bmi)) }, 0) := by
  unfold main
  simp only [printf_of_vformat _ _ _ _ (vformat_age _), printf_of_vformat _ _ _ _ (vformat_height _),
    printf_of_vformat _ _ _ _ (vformat_weight _), printf_of_vformat _ _ _ _ (vformat_bmi _)]
  simp [String.append_assoc]
  rfl


/-! ## The output of `main` -/

theorem mainText_locals :
    mainText locals.age (FP.convert binary64 locals.height)
      (FP.convert binary64 locals.bmi_weight) (FP.convert binary64 locals.bmi) =
      "Age: 25 years\nHeight: 1.75 meters\nWeight: 70.5 kg\nBMI: 23.0\n".toList := by
  decide!

/-- C1: whatever the state in which `main` starts, it returns, and it has then appended to
standard output exactly the text `Age: 25 years`, `Height: 1.75 meters`, `Weight: 70.5 kg`,
`BMI: 23.0`, each followed by a newline; nothing else of the state has changed. -/
theorem main_prints_expected (w : World) :
    main w = some ({ w with stdout := w.stdout ++
      "Age: 25 years\nHeight: 1.75 meters\nWeight: 70.5 kg\nBMI: 23.0\n" }, 0) := by
  rw [main_eq, mainText_locals]
  rfl

/-- C2: the text `main` writes is four lines and nothing more: `Age: `, `Height: `,
`Weight: ` and `BMI: `, in this order, each followed by a rest of line without a newline
character and then by one newline character. -/
theorem main_writes_four_lines (w : World) :
    ∃ a b c d : List Char,
      (¬ '\n' ∈ a ∧ ¬ '\n' ∈ b ∧ ¬ '\n' ∈ c ∧ ¬ '\n' ∈ d) ∧
      main w = some ({ w with stdout := w.stdout ++ String.mk ("Age: ".toList ++ a ++ ['\n'] ++
        ("Height: ".toList ++ b ++ ['\n']) ++ ("Weight: ".toList ++ c ++ ['\n']) ++
        ("BMI: ".toList ++ d ++ ['\n'])) }, 0) := by
  refine ⟨"25 years".toList, "1.75 meters".toList, "70.5 kg".toList, "23.0".toList,
    by decide, ?_⟩
  rw [main_eq, mainText_locals]
  rfl

/-- C3: every run of `main` returns, and the exit status is 0. -/
theorem main_exit_status (w : World) : (main w).map Prod.snd = some 0 := by
  rw [main_eq]
  rfl

/-- C4: any two runs of `main`, whatever their arguments, environment and standard input,
return, write the same text and have the same exit status, and neither changes anything
but standard output. -/
theorem main_deterministic (w₁ w₂ : World) :
    ∃ (text : String) (status : Int),
      main w₁ = some ({ w₁ with stdout := w₁.stdout ++ text }, status) ∧
      main w₂ = some ({ w₂ with stdout := w₂.stdout ++ text }, status) :=
  ⟨_, _, main_eq w₁, main_eq w₂⟩


/-! ## Fixed precision of the conversions -/

theorem digitChar_isDigit (d : Nat) (h : d < 10) : (digitChar d).isDigit = true := by
  interval_cases d <;> decide

theorem natDigitsAux_allDigits (fuel : Nat) :
    ∀ (n : Nat) (acc : List Char), AllDigits acc → AllDigits (natDigitsAux fuel n acc) := by
  induction fuel with
  | zero => intro n acc h; exact h
  | succ fuel ih =>
    intro n acc h
    unfold natDigitsAux
    split
    · rename_i hn
      intro c hc
      rcases List.mem_cons.mp hc with rfl | hc
      · exact digitChar_isDigit n hn
      · exact h c hc
    · apply ih
      intro c hc
      rcases List.mem_cons.mp hc with rfl | hc
      · exact digitChar_isDigit _ (Nat.mod_lt _ (by decide))
      · exact h c hc

theorem natDigits_allDigits (n : Nat) : AllDigits (natDigits n) :=
  natDigitsAux_allDigits _ _ _ (fun _ hc => absurd hc (List.not_mem_nil _))

theorem natDigits_ne_nil (n : Nat) : natDigits n ≠ [] := by
  unfold natDigits natDigitsAux
  split
  · exact List.cons_ne_nil _ _
  · rename_i hn
    have h : ∀ (fuel m : Nat) (c : Char) (acc : List Char),
        natDigitsAux fuel m (c :: acc) ≠ [] := by
      intro fuel
      induction fuel with
      | zero => intro m c acc; exact List.cons_ne_nil _ _
      | succ fuel ih =>
        intro m c acc
        unfold natDigitsAux
        split
        · exact List.cons_ne_nil _ _
        · exact ih _ _ _
    exact h _ _ _ _

theorem fracDigits_length (p : Nat) : ∀ n : Nat, (fracDigits p n).length = p := by
  induction p with
  | zero => intro n; rfl
  | succ p ih => intro n; simp [fracDigits, ih]

theorem fracDigits_allDigits (p : Nat) : ∀ n : Nat, AllDigits (fracDigits p n) := by
  induction p with
  | zero => intro n c hc; exact absurd hc (List.not_mem_nil _)
  | succ p ih =>
    intro n c hc
    unfold fracDigits at hc
    rcases List.mem_append.mp hc with hc | hc
    · exact ih _ c hc
    · rw [List.mem_singleton.mp hc]
      exact digitChar_isDigit _ (Nat.mod_lt _ (by decide))

/-- The conversion `%d` of a non-negative `int` is a non-empty run of digits: no sign and
no decimal point. -/
theorem fmt_d_digits (v : Int) (h : 0 ≤ v) : fmt_d v ≠ [] ∧ AllDigits (fmt_d v) := by
  have hs : fmt_d v = natDigits v.natAbs := by
    simp [fmt_d, signChars, not_lt.mpr h]
  rw [hs]
  exact ⟨natDigits_ne_nil _, natDigits_allDigits _⟩

/-- The conversion `%.pf` with a positive precision `p` of any finite non-negative number
is a non-empty run of digits, a decimal point and exactly `p` digits. -/
theorem fmt_f_fixed_precision (p m : Nat) (e : Int) (hp : 0 < p) :
    ∃ ip fp : List Char, fmt_f p (FP.finite false m e) = ip ++ '.' :: fp ∧
      ip ≠ [] ∧ AllDigits ip ∧ AllDigits fp ∧ fp.length = p := by
  refine ⟨natDigits (rne ((scaleFrac m 1 (-e)).1 * 10 ^ p) (scaleFrac m 1 (-e)).2 / 10 ^ p),
    fracDigits p (rne ((scaleFrac m 1 (-e)).1 * 10 ^ p) (scaleFrac m 1 (-e)).2 % 10 ^ p),
    ?_, natDigits_ne_nil _, natDigits_allDigits _, fracDigits_allDigits _ _,
    fracDigits_length _ _⟩
  simp [fmt_f, fixedDecimal, signChars, Nat.pos_iff_ne_zero.mp hp]


theorem promoted_height :
    FP.convert binary64 locals.height = FP.finite false 7881299347898368 (-52) := by
  decide!

theorem promoted_bmi_weight :
    FP.convert binary64 locals.bmi_weight = FP.finite false 4960996464525312 (-46) := by
  decide!

theorem promoted_bmi :
    FP.convert binary64 locals.bmi = FP.finite false 6479668983103488 (-48) := by
  decide!

/-- C5: in the text `main` writes, the age is a run of digits without a decimal point, the
height is a run of digits, a point and exactly two digits, and the weight and the BMI are
each a run of digits, a point and exactly one digit. -/
theorem main_fields_fixed_precision (w : World) :
    ∃ a hi hf wi wf bi bf : List Char,
      main w = some ({ w with stdout := w.stdout ++ String.mk ("Age: ".toList ++ a ++
        " years\n".toList ++ ("Height: ".toList ++ (hi ++ '.' :: hf) ++ " meters\n".toList) ++
        ("Weight: ".toList ++ (wi ++ '.' :: wf) ++ " kg\n".toList) ++
        ("BMI: ".toList ++ (bi ++ '.' :: bf) ++ "\n".toList)) }, 0) ∧
      (a ≠ [] ∧ AllDigits a) ∧
      (hi ≠ [] ∧ AllDigits hi ∧ AllDigits hf ∧ hf.length = 2) ∧
      (wi ≠ [] ∧ AllDigits wi ∧ AllDigits wf ∧ wf.length = 1) ∧
      (bi ≠ [] ∧ AllDigits bi ∧ AllDigits bf ∧ bf.length = 1) := by
  obtain ⟨hi, hf, hh, hh1, hh2, hh3, hh4⟩ :=
    fmt_f_fixed_precision 2 7881299347898368 (-52) (by decide)
  obtain ⟨wi, wf, hw, hw1, hw2, hw3, hw4⟩ :=
    fmt_f_fixed_precision 1 4960996464525312 (-46) (by decide)
  obtain ⟨bi, bf, hb, hb1, hb2, hb3, hb4⟩ :=
    fmt_f_fixed_precision 1 6479668983103488 (-48) (by decide)
  refine ⟨fmt_d locals.age, hi, hf, wi, wf, bi, bf, ?_, fmt_d_digits _ (by decide),
    ⟨hh1, hh2, hh3, hh4⟩, ⟨hw1, hw2, hw3, hw4⟩, ⟨hb1, hb2, hb3, hb4⟩⟩
  rw [main_eq, promoted_height, promoted_bmi_weight, promoted_bmi]
  unfold mainText
  rw [hh, hw, hb]


/-! ## The arithmetic of `main` -/

theorem height_toRat : locals.height.toRat = some (175 / 100) := by
  rw [locals_height]
  norm_num [FP.toRat]

theorem bmi_weight_toRat : locals.bmi_weight.toRat = some (705 / 10) := by
  rw [locals_bmi_weight]
  norm_num [FP.toRat]

theorem divisor_toRat :
    (FP.mul binary32 locals.height locals.height).toRat = some (30625 / 10000) := by
  rw [locals_divisor]
  norm_num [FP.toRat]

theorem bmi_toRat : locals.bmi.toRat = some (12069324 / 2 ^ 19) := by
  rw [locals_bmi]
  norm_num [FP.toRat]

theorem ilog2Aux_spec (fuel : Nat) :
    ∀ n : Nat, 0 < n → n ≤ fuel →
      2 ^ ilog2Aux fuel n ≤ n ∧ n < 2 ^ (ilog2Aux fuel n + 1) := by
  induction fuel with
  | zero => intro n h0 h; omega
  | succ fuel ih =>
    intro n h0 h
    unfold ilog2Aux
    split
    · simp only [pow_zero, zero_add, pow_one]
      omega
    · have hk := ih (n / 2) (by omega) (by omega)
      rw [pow_succ, pow_succ]
      omega

/-- The leading bit of a positive number is at position `ilog2`. -/
theorem ilog2_spec (n : Nat) (h : 0 < n) : 2 ^ ilog2 n ≤ n ∧ n < 2 ^ (ilog2 n + 1) :=
  ilog2Aux_spec n n h (Nat.le_refl n)

/-- The rounding of a fraction to an integer is within one half of the fraction. -/
theorem rne_nearest (n d : Nat) (hd : 0 < d) :
    2 * (rne n d * d) ≤ 2 * n + d ∧ 2 * n ≤ 2 * (rne n d * d) + d := by
  have h := Nat.div_add_mod n d
  have hr := Nat.mod_lt n hd
  have hmul : (n / d + 1) * d = d * (n / d) + d := by ring
  have hcomm : n / d * d = d * (n / d) := Nat.mul_comm _ _
  unfold rne
  simp only []
  split_ifs <;> simp only [hmul, hcomm] <;> omega


theorem bmi_eq_round : locals.bmi = FP.round binary32 false 1128 49 := by decide!

theorem exact_bmi_one_decimal : fixedDecimal 1 false 1128 49 = "23.0".toList := by decide!

theorem round_exact_bmi : round ((1128 / 49 : ℚ) * 10) = 230 := by
  rw [round_eq, Int.floor_eq_iff]
  norm_num

/-- C6: `bmi` is computed as the quotient of `bmi_weight` by `height * height`; the operands
are 70.5 and 1.75 * 1.75 = 3.0625, whose quotient in exact arithmetic is
1128/49 = 23.02...; `bmi` is that quotient rounded to `float`, within half a unit in the
last place of it; and 1128/49 rounded to one decimal digit is 23.0. -/
theorem bmi_is_weight_over_height_squared :
    locals.bmi =
      FP.div binary32 locals.bmi_weight (FP.mul binary32 locals.height locals.height) ∧
    locals.bmi_weight.toRat = some (705 / 10) ∧
    locals.height.toRat = some (175 / 100) ∧
    (FP.mul binary32 locals.height locals.height).toRat = some (30625 / 10000) ∧
    (175 / 100 : ℚ) * (175 / 100) = 30625 / 10000 ∧
    (705 / 10 : ℚ) / (30625 / 10000) = 1128 / 49 ∧
    ((2302 : ℚ) / 100 < 1128 / 49 ∧ (1128 : ℚ) / 49 < 2303 / 100) ∧
    locals.bmi = FP.round binary32 false 1128 49 ∧
    (∃ q : ℚ, locals.bmi.toRat = some q ∧ |q - 1128 / 49| ≤ 1 / 2 ^ 20) ∧
    (round ((1128 / 49 : ℚ) * 10) : ℚ) / 10 = 23 ∧
    fixedDecimal 1 false 1128 49 = "23.0".toList := by
  refine ⟨rfl, bmi_weight_toRat, height_toRat, divisor_toRat, by norm_num, by norm_num,
    ⟨by norm_num, by norm_num⟩, bmi_eq_round, ⟨_, bmi_toRat, ?_⟩, ?_, exact_bmi_one_decimal⟩
  · rw [abs_le]
    constructor <;> norm_num
  · rw [round_exact_bmi]
    norm_num

/-- C7: the constants 1.75 and 70.5 are the same numbers as `double` and as `float`, the
product `height * height` is exactly 1.75 * 1.75 = 3.0625, and the promotions to `double`
change no value, so the division is the only operation that rounds (`bmi` is not 1128/49);
`bmi` is printed as `23.0`, which is also the exact quotient 1128/49 to one decimal (the
`float` value of `bmi` and 1128/49 have the same nearest multiple of one tenth), and the
height and the weight are printed as `1.75` and `70.5`, the decimal forms of the
constants. -/
theorem single_precision_keeps_output :
    ((FP.ofDecimal binary64 175 2).toRat = some (175 / 100) ∧
      locals.height.toRat = some (175 / 100)) ∧
    ((FP.ofDecimal binary64 705 1).toRat = some (705 / 10) ∧
      locals.bmi_weight.toRat = some (705 / 10)) ∧
    ((FP.mul binary32 locals.height locals.height).toRat = some (30625 / 10000) ∧
      (175 / 100 : ℚ) * (175 / 100) = 30625 / 10000) ∧
    (locals.bmi = FP.round binary32 false 1128 49 ∧ locals.bmi.toRat ≠ some (1128 / 49)) ∧
    ((FP.convert binary64 locals.height).toRat = locals.height.toRat ∧
      (FP.convert binary64 locals.bmi_weight).toRat = locals.bmi_weight.toRat ∧
      (FP.convert binary64 locals.bmi).toRat = locals.bmi.toRat) ∧
    (fmt_f 1 (FP.convert binary64 locals.bmi) = "23.0".toList ∧
      fixedDecimal 1 false 1128 49 = "23.0".toList ∧
      locals.bmi.toRat = some (12069324 / 2 ^ 19) ∧
      round ((12069324 / 2 ^ 19 : ℚ) * 10) = round ((1128 / 49 : ℚ) * 10)) ∧
    (fmt_f 2 (FP.convert binary64 locals.height) = "1.75".toList ∧
      fixedDecimal 2 false 175 100 = "1.75".toList) ∧
    (fmt_f 1 (FP.convert binary64 locals.bmi_weight) = "70.5".toList ∧
      fixedDecimal 1 false 705 10 = "70.5".toList) := by
  have h1 : FP.ofDecimal binary64 175 2 = FP.finite false 7881299347898368 (-52) := by decide!
  have h2 : FP.ofDecimal binary64 705 1 = FP.finite false 4960996464525312 (-46) := by decide!
  refine ⟨⟨?_, height_toRat⟩, ⟨?_, bmi_weight_toRat⟩, ⟨divisor_toRat, by norm_num⟩,
    ⟨bmi_eq_round, ?_⟩, ⟨?_, ?_, ?_⟩, ⟨by decide!, by decide!, bmi_toRat, ?_⟩,
    ⟨by decide!, by decide!⟩, ⟨by decide!, by decide!⟩⟩
  · rw [h1]
    norm_num [FP.toRat]
  · rw [h2]
    norm_num [FP.toRat]
  · rw [bmi_toRat]
    norm_num
  · rw [promoted_height, locals_height]
    norm_num [FP.toRat]
  · rw [promoted_bmi_weight, locals_bmi_weight]
    norm_num [FP.toRat]
  · rw [promoted_bmi, locals_bmi]
    norm_num [FP.toRat]
  · rw [round_exact_bmi, round_eq, Int.floor_eq_iff]
    norm_num

/-- C8: the divisor `height * height` is the number 3.0625, not a zero, and `bmi` is a
finite number: neither an infinity nor a NaN. -/
theorem division_is_safe :
    (FP.mul binary32 locals.height locals.height).toRat = some (30625 / 10000) ∧
    (FP.mul binary32 locals.height locals.height).isZero = false ∧
    locals.bmi.isFinite = true ∧
    (∀ s : Bool, locals.bmi ≠ FP.inf s) ∧
    locals.bmi ≠ FP.nan := by
  refine ⟨divisor_toRat, by decide!, by decide!, ?_, ?_⟩
  · intro s
    rw [locals_bmi]
    exact FP.noConfusion
  · rw [locals_bmi]
    exact FP.noConfusion

end Variables
